import Mathlib

/-!
Verification of the EV charge-profile optimization notebooks
(Model 1: LP, unidirectional charging; Model 2: nonlinear objective with
battery degradation, bidirectional charging).

The configuration constants, cost model, and constraint model below are
shallow embeddings of the code cells of
`src/notebooks/08_31_Model_1_charge_profile_based_on_electricity_cost.ipynb` and
`src/notebooks/09_02_Model_2_charge_profile_with_charge_dependant_battery_degradation.ipynb`.
Exact quantities (prices, SOC fractions, bounds) are carried in `ℚ`;
the cost functions, which involve the exponential, live over `ℝ`.
-/

/- ### Shared configuration (identical in both notebooks) -/

/-- `LOW_COST = 0.1377` (euros/kWh). -/
def LOW_COST : ℚ := 0.1377

/-- `HIGH_COST = 0.1781` (euros/kWh). -/
def HIGH_COST : ℚ := 0.1781

/-- `ELECTRICITY_COSTS = [LOW_COST]*5 + [HIGH_COST]*4 + [LOW_COST]*10 + [HIGH_COST]*5`. -/
def ELECTRICITY_COSTS : List ℚ :=
  List.replicate 5 LOW_COST ++ List.replicate 4 HIGH_COST ++
    List.replicate 10 LOW_COST ++ List.replicate 5 HIGH_COST

/-- `STATE_OF_CHARGE_T0 = 0.30`. -/
def STATE_OF_CHARGE_T0 : ℚ := 0.30

/-- `STATE_OF_CHARGE_TCH = 0.90`. -/
def STATE_OF_CHARGE_TCH : ℚ := 0.90

/-- `Q_KWH = 30` (battery capacity). -/
def Q_KWH : ℚ := 30

/-- `T_MIN = 1` (vehicle is plugged from this slot on). -/
def T_MIN : ℕ := 1

/-- `T_MAX = 22` (vehicle is to be charged before this slot). -/
def T_MAX : ℕ := 22

/- ### Model-2 configuration -/

/-- `BATTERY_COST = Q_KWH*156*0.84` (euros, replacement cost). -/
def BATTERY_COST : ℚ := Q_KWH * 156 * 0.84

/-- Model 2: `CHARGE_POWER_LOWER_BOUND_KWH = -6.6` (negative: V2G allowed). -/
def CHARGE_POWER_LOWER_BOUND_KWH : ℚ := -6.6

/-- Model 2: `CHARGE_POWER_HIGHER_BOUND_KWH = 6.6`. -/
def CHARGE_POWER_HIGHER_BOUND_KWH : ℚ := 6.6

/- ### Model-2 cost model -/

/-- `degradation_function(p_) = (10**-5)*(np.exp(0.05*abs(p_)/CHARGE_POWER_HIGHER_BOUND_KWH))`. -/
noncomputable def degradation_function (p : ℝ) : ℝ :=
  (10 : ℝ) ^ (-5 : ℤ) * Real.exp (0.05 * |p| / (CHARGE_POWER_HIGHER_BOUND_KWH : ℝ))

/-- `degradation_function` with the base-rate constant `10**-5` abstracted as a
parameter; the zero-degradation reduction (spec section 8) varies this rate. -/
noncomputable def degradation_function_withRate (a : ℝ) (p : ℝ) : ℝ :=
  a * Real.exp (0.05 * |p| / (CHARGE_POWER_HIGHER_BOUND_KWH : ℝ))

/-- `cost_electricity(p) = sum(p_*ep for p_,ep in zip(p, ELECTRICITY_COSTS))`.
Python's `zip` truncates to the shorter of the two sequences, as does `List.zip`. -/
noncomputable def cost_electricity (p : List ℝ) : ℝ :=
  ((p.zip ELECTRICITY_COSTS).map (fun z => z.1 * (z.2 : ℝ))).sum

/-- `cost_degradation(p) = BATTERY_COST*sum(degradation_function(p_) for p_ in p)`. -/
noncomputable def cost_degradation (p : List ℝ) : ℝ :=
  (BATTERY_COST : ℝ) * (p.map degradation_function).sum

/-- `cost_degradation` with the degradation base rate abstracted as a parameter. -/
noncomputable def cost_degradation_withRate (a : ℝ) (p : List ℝ) : ℝ :=
  (BATTERY_COST : ℝ) * (p.map (degradation_function_withRate a)).sum

/-- `cost_charge(p)`: `ce = cost_electricity(p); cd = cost_degradation(p); return ce + cd`. -/
noncomputable def cost_charge (p : List ℝ) : ℝ :=
  cost_electricity p + cost_degradation p

/-- `cost_charge` with the degradation base rate abstracted as a parameter. -/
noncomputable def cost_charge_withRate (a : ℝ) (p : List ℝ) : ℝ :=
  cost_electricity p + cost_degradation_withRate a p

/- ### Model-2 box bounds

The notebook builds
`lb = [0]*T_MIN + [CHARGE_POWER_LOWER_BOUND_KWH]*(T_MAX-T_MIN) + [0]*(24-T_MAX)`
(and `ub` likewise) from its module-level constants.  We embed the construction
with the window and power-bound constants as parameters (they are the pipeline's
configuration).  Python's `[x]*n` yields `[]` for `n ≤ 0`, which matches
truncated `ℕ` subtraction in `List.replicate`. -/

/-- Box lower-bound list: `[0]*tmin + [lo]*(tmax-tmin) + [0]*(24-tmax)`. -/
def box_lb_list (tmin tmax : ℕ) (lo : ℚ) : List ℚ :=
  List.replicate tmin 0 ++ List.replicate (tmax - tmin) lo ++ List.replicate (24 - tmax) 0

/-- Box upper-bound list: `[0]*tmin + [hi]*(tmax-tmin) + [0]*(24-tmax)`. -/
def box_ub_list (tmin tmax : ℕ) (hi : ℚ) : List ℚ :=
  List.replicate tmin 0 ++ List.replicate (tmax - tmin) hi ++ List.replicate (24 - tmax) 0

/-- The notebook's box lower bound `lb` (the source reuses the name `lb` for the
box bounds and later for the linear-constraint bounds; we disambiguate). -/
def box_lb : List ℚ := box_lb_list T_MIN T_MAX CHARGE_POWER_LOWER_BOUND_KWH

/-- The notebook's box upper bound `ub`. -/
def box_ub : List ℚ := box_ub_list T_MIN T_MAX CHARGE_POWER_HIGHER_BOUND_KWH

/- ### Model-2 linear (cumulative SOC) constraints -/

/-- Entrywise model of `np.tril` applied to a length-24 1-D array: numpy
broadcasts the 1-D input across the rows of a 24×24 lower-triangular boolean
mask, so entry `(i,j)` is `v j` when `j ≤ i` and `0` otherwise.  The subsequent
`.reshape((24,24))` is a no-op on a `(24,24)` array. -/
def np_tril_vec (v : Fin 24 → ℝ) : Matrix (Fin 24) (Fin 24) ℝ :=
  Matrix.of fun i j => if (j : ℕ) ≤ (i : ℕ) then v j else 0

/-- `m = np.tril([1]*24).reshape((24,24))`. -/
def m : Matrix (Fin 24) (Fin 24) ℝ :=
  np_tril_vec fun _ => 1

/-- Linear-constraint lower bound: `lb = np.ones((24,))*(-STATE_OF_CHARGE_T0*Q_KWH)`
followed by `lb[T_MAX:] = (STATE_OF_CHARGE_TCH-STATE_OF_CHARGE_T0)*Q_KWH`. -/
def lin_lb (k : Fin 24) : ℚ :=
  if T_MAX ≤ (k : ℕ) then (STATE_OF_CHARGE_TCH - STATE_OF_CHARGE_T0) * Q_KWH
  else -STATE_OF_CHARGE_T0 * Q_KWH

/-- Linear-constraint upper bound: `ub = np.ones((24,))*((1-STATE_OF_CHARGE_T0)*Q_KWH)`. -/
def lin_ub (_ : Fin 24) : ℚ :=
  (1 - STATE_OF_CHARGE_T0) * Q_KWH

/-- The running cumulative sum of the first `n` entries of a 24-slot profile
(`np.cumsum(profile)[n-1]`, i.e. `profile[0]+...+profile[n-1]`). -/
def cumProfile (p : Fin 24 → ℝ) (n : ℕ) : ℝ :=
  ∑ j ∈ Finset.range n, if h : j < 24 then p ⟨j, h⟩ else 0

/-- Feasibility for the scipy `Bounds(lb, ub)` object built from a box
lower-bound list `llo` and upper-bound list `lub`: `lb[i] <= p[i] <= ub[i]`. -/
def boxFeasible (llo lub : List ℚ) (p : Fin 24 → ℝ) : Prop :=
  ∀ i : Fin 24, ((llo.getD (i : ℕ) 0 : ℚ) : ℝ) ≤ p i ∧ p i ≤ ((lub.getD (i : ℕ) 0 : ℚ) : ℝ)

/-- Feasibility for the scipy `LinearConstraint(m.tolist(), lb, ub)` object:
`lb <= m @ p <= ub` componentwise. -/
def linFeasible (p : Fin 24 → ℝ) : Prop :=
  ∀ k : Fin 24, ((lin_lb k : ℚ) : ℝ) ≤ m.mulVec p k ∧ m.mulVec p k ≤ ((lin_ub k : ℚ) : ℝ)

/-- Model-2 feasible region with V2G disabled via a zero lower power bound
(the zero-degradation reduction's premise): the notebook's box bounds with the
lower power bound set to `0`, conjoined with its cumulative linear constraints. -/
def feasibleM2NoV2G (p : Fin 24 → ℝ) : Prop :=
  boxFeasible (box_lb_list T_MIN T_MAX 0) box_ub p ∧ linFeasible p

/- ### Model-2 solver driver

`res = minimize(cost_charge, p0, method='trust-constr', ...)` returns a scipy
`OptimizeResult`; the relevant interface surface is the solution vector `res.x`
together with the convergence diagnostics (`res.success`/`res.status`).  The
reporting cell then prints `res.x` as the "Optimal charge profile" and the cost
breakdown `cost_charge(res.x)`, `cost_electricity(res.x)`, `cost_degradation(res.x)`. -/

/-- The solver's result record: the solution vector and the convergence flag
reported by the external minimizer. -/
structure OptimizeResult where
  x : List ℝ
  success : Bool

/-- The notebook's reporting cell, as a function of the solver result: it reads
only `res.x`, reporting the profile and the total/electricity/degradation cost
breakdown; it never consults the convergence diagnostics. -/
noncomputable def driver_report (res : OptimizeResult) : List ℝ × ℝ × ℝ × ℝ :=
  (res.x, cost_charge res.x, cost_electricity res.x, cost_degradation res.x)

/- ### Model 1 (LP notebook) -/

namespace M1

/-- Model 1: `CHARGE_POWER_LOWER_BOUND_KWH = 0` ("negative would allow V2H transfer"). -/
def CHARGE_POWER_LOWER_BOUND_KWH : ℚ := 0

/-- Model 1 variable lower bound: `NumVar(0, 0, ...)` outside the plug-in
window, `NumVar(CHARGE_POWER_LOWER_BOUND_KWH, CHARGE_POWER_HIGHER_BOUND_KWH, ...)` inside. -/
def vLB (i : Fin 24) : ℚ :=
  if (i : ℕ) < T_MIN ∨ T_MAX ≤ (i : ℕ) then 0 else CHARGE_POWER_LOWER_BOUND_KWH

/-- Model 1 variable upper bound (see `M1.vLB`). -/
def vUB (i : Fin 24) : ℚ :=
  if (i : ℕ) < T_MIN ∨ T_MAX ≤ (i : ℕ) then 0 else CHARGE_POWER_HIGHER_BOUND_KWH

/-- Model 1 feasible region: the per-variable bounds, the constraint
`ct_charge_vehicle_before_tmax` (coefficient 1 on `variables[:T_MAX]`, range
`[Q_KWH*(STATE_OF_CHARGE_TCH - STATE_OF_CHARGE_T0), Q_KWH*(1-STATE_OF_CHARGE_T0)]`),
and for each `i in range(1,25)` the constraint `ct_bounded_charge`
(coefficient 1 on `variables[:i]`, range
`[- Q_KWH*STATE_OF_CHARGE_T0, Q_KWH*(1-STATE_OF_CHARGE_T0)]`). -/
def feasible (p : Fin 24 → ℝ) : Prop :=
  (∀ i : Fin 24, ((vLB i : ℚ) : ℝ) ≤ p i ∧ p i ≤ ((vUB i : ℚ) : ℝ)) ∧
    (((Q_KWH * (STATE_OF_CHARGE_TCH - STATE_OF_CHARGE_T0) : ℚ) : ℝ) ≤ cumProfile p T_MAX ∧
      cumProfile p T_MAX ≤ ((Q_KWH * (1 - STATE_OF_CHARGE_T0) : ℚ) : ℝ)) ∧
    ∀ n : ℕ, 1 ≤ n → n ≤ 24 →
      (((-(Q_KWH * STATE_OF_CHARGE_T0) : ℚ) : ℝ) ≤ cumProfile p n ∧
        cumProfile p n ≤ ((Q_KWH * (1 - STATE_OF_CHARGE_T0) : ℚ) : ℝ))

/-- Model 1 objective: `objective.SetCoefficient(variable, ELECTRICITY_COSTS[i])`
for each variable, minimized. -/
noncomputable def objective (p : Fin 24 → ℝ) : ℝ :=
  ∑ i : Fin 24, ((ELECTRICITY_COSTS.getD (i : ℕ) 0 : ℚ) : ℝ) * p i

end M1

/- ### Helper lemmas -/

theorem cumProfile_succ (p : Fin 24 → ℝ) (n : ℕ) (h : n < 24) :
    cumProfile p (n + 1) = cumProfile p n + p ⟨n, h⟩ := by
  simp [cumProfile, Finset.sum_range_succ, h]

theorem mulVec_m (p : Fin 24 → ℝ) (k : Fin 24) :
    m.mulVec p k = cumProfile p ((k : ℕ) + 1) := by
  have h1 : m.mulVec p k = ∑ j : Fin 24, if (j : ℕ) ≤ (k : ℕ) then p j else 0 := by
    simp only [m, np_tril_vec, Matrix.mulVec, Matrix.dotProduct, Matrix.of_apply, ite_mul,
      one_mul, zero_mul]
  set g : ℕ → ℝ := fun jn => if h : jn < 24 then (if jn ≤ (k : ℕ) then p ⟨jn, h⟩ else 0) else 0
    with hg
  have h2 : ∀ j : Fin 24, (if (j : ℕ) ≤ (k : ℕ) then p j else 0) = g (j : ℕ) := by
    intro j
    simp [hg, j.isLt]
  have h3 : ∑ j : Fin 24, g (j : ℕ) = ∑ jn ∈ Finset.range 24, g jn :=
    Fin.sum_univ_eq_sum_range g 24
  rw [h1, Finset.sum_congr rfl fun j _ => h2 j, h3]
  have hsplit : Finset.range 24 = Finset.range ((k : ℕ) + 1) ∪ Finset.Ico ((k : ℕ) + 1) 24 := by
    rw [Finset.range_eq_Ico]
    exact (Finset.Ico_union_Ico_eq_Ico (Nat.zero_le _) (by omega)).symm
  rw [hsplit, Finset.sum_union (by
    rw [Finset.range_eq_Ico]
    exact Finset.Ico_disjoint_Ico_consecutive 0 ((k : ℕ) + 1) 24)]
  have hz : ∑ jn ∈ Finset.Ico ((k : ℕ) + 1) 24, g jn = 0 := by
    refine Finset.sum_eq_zero fun jn hjn => ?_
    have hmem := Finset.mem_Ico.mp hjn
    have hn : ¬ jn ≤ (k : ℕ) := by omega
    simp [hg, hn]
  rw [hz, add_zero, cumProfile]
  refine Finset.sum_congr rfl fun jn hjn => ?_
  have hlt : jn < (k : ℕ) + 1 := Finset.mem_range.mp hjn
  have hle : jn ≤ (k : ℕ) := by omega
  have h24 : jn < 24 := by omega
  simp [hg, h24, hle]

theorem zip_mul_sum : ∀ (xs : List ℝ) (qs : List ℚ),
    ((xs.zip qs).map fun z => z.1 * (z.2 : ℝ)).sum =
      ∑ i ∈ Finset.range qs.length, xs.getD i 0 * ((qs.getD i 0 : ℚ) : ℝ) := by
  intro xs
  induction xs with
  | nil =>
    intro qs
    simp
  | cons x xs ih =>
    intro qs
    cases qs with
    | nil => simp
    | cons q qs =>
      simp only [List.zip_cons_cons, List.map_cons, List.sum_cons, List.length_cons]
      rw [Finset.sum_range_succ']
      simp only [List.getD_cons_succ, List.getD_cons_zero]
      rw [ih qs]
      ring

theorem cost_electricity_ofFn (p : Fin 24 → ℝ) :
    cost_electricity (List.ofFn p) =
      ∑ i : Fin 24, p i * ((ELECTRICITY_COSTS.getD (i : ℕ) 0 : ℚ) : ℝ) := by
  rw [cost_electricity, zip_mul_sum]
  have hlen : ELECTRICITY_COSTS.length = 24 := rfl
  rw [hlen]
  set g : ℕ → ℝ := fun i => (List.ofFn p).getD i 0 * ((ELECTRICITY_COSTS.getD i 0 : ℚ) : ℝ)
    with hg
  rw [← Fin.sum_univ_eq_sum_range g 24]
  refine Finset.sum_congr rfl fun i _ => ?_
  have h1 : (List.ofFn p).getD (i : ℕ) 0 = p i := by
    rw [List.getD_eq_getElem _ _ (by simp [i.isLt]), List.getElem_ofFn]
  simp only [hg]
  rw [h1]

theorem box_list_getD (tmin tmax : ℕ) (v : ℚ) (i : ℕ) (h1 : tmin ≤ tmax) (h2 : tmax ≤ 24)
    (h3 : i < 24) :
    (List.replicate tmin (0 : ℚ) ++ List.replicate (tmax - tmin) v ++
        List.replicate (24 - tmax) 0).getD i 0 =
      if i < tmin ∨ tmax ≤ i then 0 else v := by
  rcases Nat.lt_or_ge i tmin with hlt | hge
  · rw [List.getD_append _ _ _ _ (by simp; omega)]
    rw [List.getD_append _ _ _ _ (by simp; omega)]
    rw [List.getD_eq_getElem _ _ (by simp; omega), List.getElem_replicate]
    simp [hlt]
  · rcases Nat.lt_or_ge i tmax with hlt2 | hge2
    · rw [List.getD_append _ _ _ _ (by simp; omega)]
      rw [List.getD_append_right _ _ _ _ (by simp; omega)]
      rw [List.getD_eq_getElem _ _ (by simp; omega), List.getElem_replicate]
      rw [if_neg (by omega)]
    · rw [List.getD_append_right _ _ _ _ (by simp; omega)]
      rw [List.getD_eq_getElem _ _ (by simp; omega), List.getElem_replicate]
      rw [if_pos (by omega)]

theorem cumProfile_succ_fin (p : Fin 24 → ℝ) (i : Fin 24) :
    cumProfile p ((i : ℕ) + 1) = cumProfile p (i : ℕ) + p i := by
  simp [cumProfile, Finset.sum_range_succ, i.isLt]

theorem objective_eq_cost_electricity (p : Fin 24 → ℝ) :
    M1.objective p = cost_electricity (List.ofFn p) := by
  rw [cost_electricity_ofFn, M1.objective]
  exact Finset.sum_congr rfl fun i _ => mul_comm _ _

theorem cost_charge_withRate_zero (p : List ℝ) :
    cost_charge_withRate 0 p = cost_electricity p := by
  rw [cost_charge_withRate, cost_degradation_withRate]
  have hz : (p.map (degradation_function_withRate 0)).sum = 0 := by
    refine List.sum_eq_zero fun x hx => ?_
    obtain ⟨y, _, rfl⟩ := List.mem_map.mp hx
    rw [degradation_function_withRate]
    exact zero_mul _
  rw [hz, mul_zero, add_zero]

theorem box_lb_list_getD (tmin tmax : ℕ) (lo : ℚ) (i : ℕ) (h1 : tmin ≤ tmax) (h2 : tmax ≤ 24)
    (h3 : i < 24) :
    (box_lb_list tmin tmax lo).getD i 0 = if i < tmin ∨ tmax ≤ i then 0 else lo :=
  box_list_getD tmin tmax lo i h1 h2 h3

theorem box_ub_list_getD (tmin tmax : ℕ) (hi : ℚ) (i : ℕ) (h1 : tmin ≤ tmax) (h2 : tmax ≤ 24)
    (h3 : i < 24) :
    (box_ub_list tmin tmax hi).getD i 0 = if i < tmin ∨ tmax ≤ i then 0 else hi :=
  box_list_getD tmin tmax hi i h1 h2 h3

theorem box_lb_getD (i : Fin 24) :
    box_lb.getD (i : ℕ) 0 =
      if (i : ℕ) < T_MIN ∨ T_MAX ≤ (i : ℕ) then 0 else CHARGE_POWER_LOWER_BOUND_KWH :=
  box_lb_list_getD T_MIN T_MAX CHARGE_POWER_LOWER_BOUND_KWH (i : ℕ) (by decide) (by decide) i.isLt

theorem box_ub_getD (i : Fin 24) :
    box_ub.getD (i : ℕ) 0 =
      if (i : ℕ) < T_MIN ∨ T_MAX ≤ (i : ℕ) then 0 else CHARGE_POWER_HIGHER_BOUND_KWH :=
  box_ub_list_getD T_MIN T_MAX CHARGE_POWER_HIGHER_BOUND_KWH (i : ℕ) (by decide) (by decide) i.isLt

theorem box_lbzero_getD (i : Fin 24) :
    (box_lb_list T_MIN T_MAX 0).getD (i : ℕ) 0 = 0 := by
  rw [box_lb_list_getD T_MIN T_MAX 0 (i : ℕ) (by decide) (by decide) i.isLt]
  split <;> rfl

theorem vLB_zero (i : Fin 24) : M1.vLB i = 0 := by
  rw [M1.vLB]
  split <;> rfl

theorem box_ub_eq_vUB (i : Fin 24) : box_ub.getD (i : ℕ) 0 = M1.vUB i := by
  rw [box_ub_getD i, M1.vUB]

theorem boxFeasible_zero_at (llo lub : List ℚ) (p : Fin 24 → ℝ) (hb : boxFeasible llo lub p)
    (i : Fin 24) (hlo : llo.getD (i : ℕ) 0 = 0) (hub : lub.getD (i : ℕ) 0 = 0) : p i = 0 := by
  have h := hb i
  rw [hlo, hub] at h
  push_cast at h
  exact le_antisymm h.2 h.1

theorem linFeasible_cum (p : Fin 24 → ℝ) (hlin : linFeasible p) (n : ℕ) (h1 : 1 ≤ n)
    (h2 : n ≤ 24) :
    ((lin_lb ⟨n - 1, by omega⟩ : ℚ) : ℝ) ≤ cumProfile p n ∧
      cumProfile p n ≤ ((lin_ub ⟨n - 1, by omega⟩ : ℚ) : ℝ) := by
  have h := hlin ⟨n - 1, by omega⟩
  rw [mulVec_m] at h
  have hv : (Fin.val (⟨n - 1, by omega⟩ : Fin 24)) + 1 = n := by
    show n - 1 + 1 = n
    omega
  rw [hv] at h
  exact h

theorem lin_lb_ge (k : Fin 24) : -(Q_KWH * STATE_OF_CHARGE_T0) ≤ lin_lb k := by
  rw [lin_lb]
  split <;> norm_num [Q_KWH, STATE_OF_CHARGE_T0, STATE_OF_CHARGE_TCH]

theorem feasibleM2NoV2G_iff (p : Fin 24 → ℝ) : feasibleM2NoV2G p ↔ M1.feasible p := by
  have hlt22 : (22 : ℕ) < 24 := by omega
  have hlt23 : (23 : ℕ) < 24 := by omega
  constructor
  · rintro ⟨hbox, hlin⟩
    have hp22 : p ⟨22, hlt22⟩ = 0 := by
      refine boxFeasible_zero_at _ _ p hbox ⟨22, hlt22⟩ (box_lbzero_getD _) ?_
      rw [box_ub_getD ⟨22, hlt22⟩]
      exact if_pos (Or.inr (by show T_MAX ≤ 22; decide))
    have hp23 : p ⟨23, hlt23⟩ = 0 := by
      refine boxFeasible_zero_at _ _ p hbox ⟨23, hlt23⟩ (box_lbzero_getD _) ?_
      rw [box_ub_getD ⟨23, hlt23⟩]
      exact if_pos (Or.inr (by show T_MAX ≤ 23; decide))
    have hcum23 : cumProfile p 23 = cumProfile p 22 := by
      have hstep : cumProfile p 23 = cumProfile p 22 + p ⟨22, hlt22⟩ :=
        cumProfile_succ_fin p ⟨22, hlt22⟩
      rw [hstep, hp22, add_zero]
    have hcum24 : cumProfile p 24 = cumProfile p 22 := by
      have hstep : cumProfile p 24 = cumProfile p 23 + p ⟨23, hlt23⟩ :=
        cumProfile_succ_fin p ⟨23, hlt23⟩
      rw [hstep, hp23, add_zero, hcum23]
    refine ⟨fun i => ?_, ⟨?_, ?_⟩, fun n hn1 hn2 => ⟨?_, ?_⟩⟩
    · have h := hbox i
      rw [box_lbzero_getD i, box_ub_eq_vUB i] at h
      rw [vLB_zero i]
      exact h
    · -- terminal lower bound: row 22 of the cumulative constraints
      have h := (linFeasible_cum p hlin 23 (by omega) (by omega)).1
      have hq : lin_lb ⟨23 - 1, by omega⟩ = Q_KWH * (STATE_OF_CHARGE_TCH - STATE_OF_CHARGE_T0) := by
        rw [lin_lb, if_pos (by decide)]
        ring
      rw [hq, hcum23] at h
      exact h
    · have h := (linFeasible_cum p hlin 22 (by omega) (by omega)).2
      have hq : lin_ub ⟨22 - 1, by omega⟩ = Q_KWH * (1 - STATE_OF_CHARGE_T0) := by
        rw [lin_ub]
        ring
      rw [hq] at h
      exact h
    · have h := (linFeasible_cum p hlin n hn1 hn2).1
      refine le_trans ?_ h
      exact_mod_cast lin_lb_ge ⟨n - 1, by omega⟩
    · have h := (linFeasible_cum p hlin n hn1 hn2).2
      have hq : lin_ub ⟨n - 1, by omega⟩ = Q_KWH * (1 - STATE_OF_CHARGE_T0) := by
        rw [lin_ub]
        ring
      rw [hq] at h
      exact h
  · rintro ⟨hbox, hterm, hall⟩
    have hub22 : M1.vUB ⟨22, hlt22⟩ = 0 := by
      rw [M1.vUB]
      exact if_pos (Or.inr (by show T_MAX ≤ 22; decide))
    have hub23 : M1.vUB ⟨23, hlt23⟩ = 0 := by
      rw [M1.vUB]
      exact if_pos (Or.inr (by show T_MAX ≤ 23; decide))
    have hp22 : p ⟨22, hlt22⟩ = 0 := by
      have h := hbox ⟨22, hlt22⟩
      rw [vLB_zero, hub22] at h
      push_cast at h
      exact le_antisymm h.2 h.1
    have hp23 : p ⟨23, hlt23⟩ = 0 := by
      have h := hbox ⟨23, hlt23⟩
      rw [vLB_zero, hub23] at h
      push_cast at h
      exact le_antisymm h.2 h.1
    have hcum23 : cumProfile p 23 = cumProfile p 22 := by
      have hstep : cumProfile p 23 = cumProfile p 22 + p ⟨22, hlt22⟩ :=
        cumProfile_succ_fin p ⟨22, hlt22⟩
      rw [hstep, hp22, add_zero]
    have hcum24 : cumProfile p 24 = cumProfile p 22 := by
      have hstep : cumProfile p 24 = cumProfile p 23 + p ⟨23, hlt23⟩ :=
        cumProfile_succ_fin p ⟨23, hlt23⟩
      rw [hstep, hp23, add_zero, hcum23]
    constructor
    · intro i
      have h := hbox i
      rw [vLB_zero i] at h
      rw [box_lbzero_getD i, box_ub_eq_vUB i]
      exact h
    · intro k
      have hk24 := k.isLt
      rw [mulVec_m]
      by_cases hk : (k : ℕ) < 22
      · have h := hall ((k : ℕ) + 1) (by omega) (by omega)
        have hqlb : lin_lb k = -(Q_KWH * STATE_OF_CHARGE_T0) := by
          rw [lin_lb, if_neg (by simp only [T_MAX]; omega)]
          ring
        have hqub : lin_ub k = Q_KWH * (1 - STATE_OF_CHARGE_T0) := by
          rw [lin_ub]
          ring
        rw [hqlb, hqub]
        exact h
      · have hor : (k : ℕ) = 22 ∨ (k : ℕ) = 23 := by omega
        have hcum : cumProfile p ((k : ℕ) + 1) = cumProfile p 22 := by
          rcases hor with h | h
          · rw [h]
            exact hcum23
          · rw [h]
            exact hcum24
        have hqlb : lin_lb k = Q_KWH * (STATE_OF_CHARGE_TCH - STATE_OF_CHARGE_T0) := by
          rw [lin_lb, if_pos (by simp only [T_MAX]; omega)]
          ring
        have hqub : lin_ub k = Q_KWH * (1 - STATE_OF_CHARGE_T0) := by
          rw [lin_ub]
          ring
        rw [hcum, hqlb, hqub]
        exact hterm

theorem abs_zip_mul_le : ∀ (xs : List ℝ) (B C : ℝ), 0 ≤ B → 0 ≤ C → (∀ x ∈ xs, |x| ≤ B) →
    ∀ qs : List ℚ, (∀ q ∈ qs, |(q : ℝ)| ≤ C) →
    |((xs.zip qs).map fun z => z.1 * (z.2 : ℝ)).sum| ≤ xs.length * (B * C) := by
  intro xs
  induction xs with
  | nil =>
    intro B C hB hC _ qs _
    simp
  | cons x xs ih =>
    intro B C hB hC hx qs hq
    cases qs with
    | nil =>
      simp only [List.zip_nil_right, List.map_nil, List.sum_nil, abs_zero, List.length_cons]
      positivity
    | cons q qs =>
      simp only [List.zip_cons_cons, List.map_cons, List.sum_cons, List.length_cons]
      have h1 : |x * (q : ℝ)| ≤ B * C := by
        rw [abs_mul]
        exact mul_le_mul (hx x (List.mem_cons_self x xs)) (hq q (List.mem_cons_self q qs))
          (abs_nonneg _) hB
      have h2 := ih B C hB hC (fun y hy => hx y (List.mem_cons_of_mem _ hy)) qs
        (fun r hr => hq r (List.mem_cons_of_mem _ hr))
      calc |x * (q : ℝ) + ((xs.zip qs).map fun z => z.1 * (z.2 : ℝ)).sum|
          ≤ |x * (q : ℝ)| + |((xs.zip qs).map fun z => z.1 * (z.2 : ℝ)).sum| := abs_add _ _
        _ ≤ B * C + xs.length * (B * C) := add_le_add h1 h2
        _ = ((xs.length + 1 : ℕ) : ℝ) * (B * C) := by push_cast; ring

theorem degradation_function_nonneg (x : ℝ) : 0 ≤ degradation_function x := by
  rw [degradation_function]
  positivity

theorem degradation_function_le (x B : ℝ) (h : |x| ≤ B) :
    degradation_function x ≤
      (10 : ℝ) ^ (-5 : ℤ) * Real.exp (0.05 * B / (CHARGE_POWER_HIGHER_BOUND_KWH : ℝ)) := by
  rw [degradation_function]
  have h66 : (0 : ℝ) < ((CHARGE_POWER_HIGHER_BOUND_KWH : ℚ) : ℝ) := by
    norm_num [CHARGE_POWER_HIGHER_BOUND_KWH]
  refine mul_le_mul_of_nonneg_left (Real.exp_le_exp.mpr ?_) (by positivity)
  refine div_le_div_of_nonneg_right ?_ h66.le
  nlinarith [abs_nonneg x]

theorem deg_sum_bounds : ∀ (xs : List ℝ) (B : ℝ), (∀ x ∈ xs, |x| ≤ B) →
    0 ≤ (xs.map degradation_function).sum ∧
    (xs.map degradation_function).sum ≤
      xs.length * ((10 : ℝ) ^ (-5 : ℤ) *
        Real.exp (0.05 * B / (CHARGE_POWER_HIGHER_BOUND_KWH : ℝ))) := by
  intro xs
  induction xs with
  | nil =>
    intro B _
    simp
  | cons x xs ih =>
    intro B hx
    have h1 := degradation_function_nonneg x
    have h2 := degradation_function_le x B (hx x (List.mem_cons_self x xs))
    have h3 := ih B fun y hy => hx y (List.mem_cons_of_mem _ hy)
    simp only [List.map_cons, List.sum_cons, List.length_cons]
    constructor
    · exact add_nonneg h1 h3.1
    · calc degradation_function x + (xs.map degradation_function).sum
          ≤ (10 : ℝ) ^ (-5 : ℤ) * Real.exp (0.05 * B / (CHARGE_POWER_HIGHER_BOUND_KWH : ℝ)) +
            xs.length * ((10 : ℝ) ^ (-5 : ℤ) *
              Real.exp (0.05 * B / (CHARGE_POWER_HIGHER_BOUND_KWH : ℝ))) := add_le_add h2 h3.2
        _ = ((xs.length + 1 : ℕ) : ℝ) * ((10 : ℝ) ^ (-5 : ℤ) *
              Real.exp (0.05 * B / (CHARGE_POWER_HIGHER_BOUND_KWH : ℝ))) := by push_cast; ring

theorem price_abs_le : ∀ q ∈ ELECTRICITY_COSTS, |(q : ℝ)| ≤ ((HIGH_COST : ℚ) : ℝ) := by
  intro q hq
  have hq2 : q = LOW_COST ∨ q = HIGH_COST := by
    simp only [ELECTRICITY_COSTS, List.mem_append, List.mem_replicate] at hq
    tauto
  rcases hq2 with h | h
  · subst h
    rw [abs_of_nonneg (by norm_num [LOW_COST])]
    norm_num [LOW_COST, HIGH_COST]
  · subst h
    rw [abs_of_nonneg (by norm_num [HIGH_COST])]

/- ### Claim theorems -/

/-- C1 (counterexample): the notebook's slice assignment `lb[T_MAX:] = ...` tightens
the linear-constraint lower bound of EVERY row from index `T_MAX` on, not only a
single terminal row: rows 22 and 23 both carry the tightened bound
`(STATE_OF_CHARGE_TCH - STATE_OF_CHARGE_T0) * Q_KWH`, so row 23 — a row after
`t_max` — does NOT keep the lower bound `-STATE_OF_CHARGE_T0 * Q_KWH` claimed for it. -/
theorem C1_counterexample :
    lin_lb ⟨22, by omega⟩ = (STATE_OF_CHARGE_TCH - STATE_OF_CHARGE_T0) * Q_KWH ∧
    lin_lb ⟨23, by omega⟩ = (STATE_OF_CHARGE_TCH - STATE_OF_CHARGE_T0) * Q_KWH ∧
    lin_lb ⟨23, by omega⟩ ≠ -STATE_OF_CHARGE_T0 * Q_KWH := by
  refine ⟨?_, ?_, ?_⟩
  · rw [lin_lb, if_pos (by decide)]
  · rw [lin_lb, if_pos (by decide)]
  · rw [lin_lb, if_pos (by decide)]
    norm_num [STATE_OF_CHARGE_T0, STATE_OF_CHARGE_TCH, Q_KWH]

/-- C1 (amended): every row `k < T_MAX` of the cumulative-sum constraint has bounds
`[-STATE_OF_CHARGE_T0 * Q_KWH, (1 - STATE_OF_CHARGE_T0) * Q_KWH]`; every row
`k ≥ T_MAX` (the row at `t_max` and all later rows, not a single terminal row)
has its lower bound tightened to `(STATE_OF_CHARGE_TCH - STATE_OF_CHARGE_T0) * Q_KWH`;
the upper bound is `(1 - STATE_OF_CHARGE_T0) * Q_KWH` for all rows. -/
theorem C1_lin_bounds_amended (k : Fin 24) :
    ((k : ℕ) < T_MAX → lin_lb k = -STATE_OF_CHARGE_T0 * Q_KWH) ∧
    (T_MAX ≤ (k : ℕ) → lin_lb k = (STATE_OF_CHARGE_TCH - STATE_OF_CHARGE_T0) * Q_KWH) ∧
    lin_ub k = (1 - STATE_OF_CHARGE_T0) * Q_KWH := by
  refine ⟨fun h => ?_, fun h => ?_, rfl⟩
  · rw [lin_lb, if_neg (by omega)]
  · rw [lin_lb, if_pos h]

/-- C1 (amended) witness: row 5 (before `t_max`) keeps the untightened lower
bound, row 23 carries the tightened one. -/
theorem C1_lin_bounds_amended_witness :
    lin_lb ⟨5, by omega⟩ = -STATE_OF_CHARGE_T0 * Q_KWH ∧
    lin_lb ⟨23, by omega⟩ = (STATE_OF_CHARGE_TCH - STATE_OF_CHARGE_T0) * Q_KWH :=
  ⟨(C1_lin_bounds_amended ⟨5, by omega⟩).1 (by decide),
   (C1_lin_bounds_amended ⟨23, by omega⟩).2.1 (by decide)⟩

/-- C2: `m = np.tril([1]*24).reshape((24,24))` is the 24×24 lower-triangular
all-ones matrix (row `k` has ones in columns `0..k`, zeros elsewhere), and for
every real 24-vector `p` and row `k`, `(m @ p)[k]` is the cumulative sum
`p[0] + ... + p[k]`. -/
theorem C2_tril_cumsum :
    (∀ i j : Fin 24, m i j = if (j : ℕ) ≤ (i : ℕ) then 1 else 0) ∧
    ∀ (p : Fin 24 → ℝ) (k : Fin 24), m.mulVec p k = cumProfile p ((k : ℕ) + 1) :=
  ⟨fun _ _ => rfl, mulVec_m⟩

/-- C3: `degradation_function(p) = 1e-5 * exp(0.05 * |p| / 6.6)` for every real
`p`, and for every 24-vector profile, `cost_degradation` is the replacement cost
`BATTERY_COST` times the sum over all slots of `degradation_function(profile[i])`. -/
theorem C3_degradation_cost :
    (∀ p : ℝ, degradation_function p = 1e-5 * Real.exp (0.05 * |p| / 6.6)) ∧
    ∀ profile : Fin 24 → ℝ,
      cost_degradation (List.ofFn profile) =
        (BATTERY_COST : ℝ) * ∑ i : Fin 24, degradation_function (profile i) := by
  constructor
  · intro p
    rw [degradation_function]
    norm_num [CHARGE_POWER_HIGHER_BOUND_KWH]
  · intro profile
    rw [cost_degradation, List.map_ofFn, List.sum_ofFn]
    rfl

/-- C4: per-slot box bounds.  Outside the plug-in window (`i < T_MIN` or
`i >= T_MAX`) lower = upper = 0 in both models; inside it, Model 2 uses
`[CHARGE_POWER_LOWER_BOUND_KWH, CHARGE_POWER_HIGHER_BOUND_KWH] = [-6.6, 6.6]`
and Model 1 uses `[0, 6.6]`.  Each slot's bound depends on its own index only. -/
theorem C4_box_bounds (i : Fin 24) :
    (((i : ℕ) < T_MIN ∨ T_MAX ≤ (i : ℕ)) →
      box_lb.getD (i : ℕ) 0 = 0 ∧ box_ub.getD (i : ℕ) 0 = 0 ∧
        M1.vLB i = 0 ∧ M1.vUB i = 0) ∧
    ((T_MIN ≤ (i : ℕ) ∧ (i : ℕ) < T_MAX) →
      box_lb.getD (i : ℕ) 0 = CHARGE_POWER_LOWER_BOUND_KWH ∧
      box_ub.getD (i : ℕ) 0 = CHARGE_POWER_HIGHER_BOUND_KWH ∧
      M1.vLB i = M1.CHARGE_POWER_LOWER_BOUND_KWH ∧
      M1.vUB i = CHARGE_POWER_HIGHER_BOUND_KWH) ∧
    CHARGE_POWER_LOWER_BOUND_KWH = -6.6 ∧ CHARGE_POWER_HIGHER_BOUND_KWH = 6.6 ∧
    M1.CHARGE_POWER_LOWER_BOUND_KWH = 0 := by
  refine ⟨fun h => ⟨?_, ?_, ?_, ?_⟩, fun h => ⟨?_, ?_, ?_, ?_⟩, rfl, rfl, rfl⟩
  · rw [box_lb_getD i, if_pos h]
  · rw [box_ub_getD i, if_pos h]
  · rw [M1.vLB, if_pos h]
  · rw [M1.vUB, if_pos h]
  · rw [box_lb_getD i, if_neg (by omega)]
  · rw [box_ub_getD i, if_neg (by omega)]
  · rw [M1.vLB, if_neg (by omega)]
  · rw [M1.vUB, if_neg (by omega)]

/-- C4 witness: slot 0 is outside the window (bounds 0), slot 5 is inside
(Model-2 upper bound 6.6). -/
theorem C4_box_bounds_witness :
    box_lb.getD ((⟨0, by omega⟩ : Fin 24) : ℕ) 0 = 0 ∧
    box_ub.getD ((⟨5, by omega⟩ : Fin 24) : ℕ) 0 = CHARGE_POWER_HIGHER_BOUND_KWH :=
  ⟨((C4_box_bounds ⟨0, by omega⟩).1 (by decide)).1,
   ((C4_box_bounds ⟨5, by omega⟩).2.1 (by decide)).2.1⟩

/-- C6: `cost_charge = cost_electricity + cost_degradation` exactly for every real
24-vector, and `cost_electricity` is the sum over all slots of
`profile[i] * ELECTRICITY_COSTS[i]`. -/
theorem C6_cost_decomposition (p : Fin 24 → ℝ) :
    cost_charge (List.ofFn p) =
      cost_electricity (List.ofFn p) + cost_degradation (List.ofFn p) ∧
    cost_electricity (List.ofFn p) =
      ∑ i : Fin 24, p i * ((ELECTRICITY_COSTS.getD (i : ℕ) 0 : ℚ) : ℝ) :=
  ⟨rfl, cost_electricity_ofFn p⟩

/-- C7 (counterexample): the notebook's reporting cell produces the identical
output — profile presented as the "Optimal charge profile" with its cost
breakdown — for a non-converged solver result (`success = false`) as for a
converged one; no distinct non-convergence condition is surfaced.  Shown at the
concrete zero profile. -/
theorem C7_counterexample :
    driver_report ⟨List.replicate 24 0, false⟩ = driver_report ⟨List.replicate 24 0, true⟩ :=
  rfl

/-- C7 (amended): the notebook's driver does not inspect the solver's
convergence diagnostics: its report is a function of `res.x` alone, so any two
results with the same solution vector — converged or not — are reported
identically (non-convergence is visible only in the external solver's own
verbose log, not in the driver's output). -/
theorem C7_driver_unconditional (x : List ℝ) (b1 b2 : Bool) :
    driver_report ⟨x, b1⟩ = driver_report ⟨x, b2⟩ :=
  rfl

/-- C8 (counterexample): the pipeline performs no configuration validation.  For
the malformed window `t_min = 22 >= t_max = 1` the bounds construction does not
reject: it silently yields 45-entry bound lists (length `22 + 0 + 23`, not 24)
and the solver would be invoked on them. -/
theorem C8_counterexample :
    (box_lb_list 22 1 (-6.6)).length = 45 ∧ (box_ub_list 22 1 6.6).length = 45 ∧
    (45 : ℕ) ≠ 24 := by
  refine ⟨?_, ?_, by omega⟩
  · norm_num [box_lb_list]
  · norm_num [box_ub_list]

/-- C8 (amended): the bounds construction is total on every configuration —
malformed or not, it returns bound lists (of length
`tmin + (tmax - tmin) + (24 - tmax)`, which is 24 only for well-formed windows)
and never raises a configuration error; no validation happens before the solver
and no value is clamped. -/
theorem C8_no_validation (tmin tmax : ℕ) (lo hi : ℚ) :
    (box_lb_list tmin tmax lo).length = tmin + (tmax - tmin) + (24 - tmax) ∧
    (box_ub_list tmin tmax hi).length = tmin + (tmax - tmin) + (24 - tmax) := by
  constructor
  · simp [box_lb_list]
    omega
  · simp [box_ub_list]
    omega

/-- C5: the three cost functions are total real-valued functions on arbitrary
real vectors — including constraint-violating ones — and never produce an
infinite value: on any input whose entries are bounded by `B` in absolute value,
each cost is bounded by an explicit finite expression (the formal content of
"returns a finite real value"; in the embedding no exception channel exists, the
functions being plain total functions). -/
theorem C5_costs_finite (p : List ℝ) (B : ℝ) (hB : 0 ≤ B) (h : ∀ x ∈ p, |x| ≤ B) :
    |cost_electricity p| ≤ p.length * (B * ((HIGH_COST : ℚ) : ℝ)) ∧
    |cost_degradation p| ≤
      (BATTERY_COST : ℝ) * (p.length * ((10 : ℝ) ^ (-5 : ℤ) *
        Real.exp (0.05 * B / (CHARGE_POWER_HIGHER_BOUND_KWH : ℝ)))) ∧
    |cost_charge p| ≤
      p.length * (B * ((HIGH_COST : ℚ) : ℝ)) +
        (BATTERY_COST : ℝ) * (p.length * ((10 : ℝ) ^ (-5 : ℤ) *
          Real.exp (0.05 * B / (CHARGE_POWER_HIGHER_BOUND_KWH : ℝ)))) := by
  have hC : (0 : ℝ) ≤ ((HIGH_COST : ℚ) : ℝ) := by norm_num [HIGH_COST]
  have hBC : (0 : ℝ) ≤ ((BATTERY_COST : ℚ) : ℝ) := by norm_num [BATTERY_COST, Q_KWH]
  have he : |cost_electricity p| ≤ p.length * (B * ((HIGH_COST : ℚ) : ℝ)) := by
    rw [cost_electricity]
    exact abs_zip_mul_le p B _ hB hC h ELECTRICITY_COSTS price_abs_le
  have hd := deg_sum_bounds p B h
  have hdg : |cost_degradation p| ≤
      (BATTERY_COST : ℝ) * (p.length * ((10 : ℝ) ^ (-5 : ℤ) *
        Real.exp (0.05 * B / (CHARGE_POWER_HIGHER_BOUND_KWH : ℝ)))) := by
    rw [cost_degradation, abs_mul, abs_of_nonneg hBC, abs_of_nonneg hd.1]
    exact mul_le_mul_of_nonneg_left hd.2 hBC
  refine ⟨he, hdg, ?_⟩
  calc |cost_charge p| = |cost_electricity p + cost_degradation p| := rfl
    _ ≤ |cost_electricity p| + |cost_degradation p| := abs_add _ _
    _ ≤ _ := add_le_add he hdg

/-- C5 witness: the bound evaluated on the concrete constraint-violating vector
`[7, -9]` (entries outside the box bounds) with `B = 9`. -/
theorem C5_costs_finite_witness :
    |cost_electricity [7, -9]| ≤ ([7, -9] : List ℝ).length * (9 * ((HIGH_COST : ℚ) : ℝ)) ∧
    |cost_charge [7, -9]| ≤
      ([7, -9] : List ℝ).length * (9 * ((HIGH_COST : ℚ) : ℝ)) +
        (BATTERY_COST : ℝ) * (([7, -9] : List ℝ).length * ((10 : ℝ) ^ (-5 : ℤ) *
          Real.exp (0.05 * 9 / (CHARGE_POWER_HIGHER_BOUND_KWH : ℝ)))) := by
  have hmem : ∀ x ∈ ([7, -9] : List ℝ), |x| ≤ 9 := by
    intro x hx
    rcases List.mem_cons.mp hx with h | h
    · subst h
      norm_num
    · rcases List.mem_cons.mp h with h2 | h2
      · subst h2
        norm_num
      · simp at h2
  exact ⟨(C5_costs_finite [7, -9] 9 (by norm_num) hmem).1,
    (C5_costs_finite [7, -9] 9 (by norm_num) hmem).2.2⟩

/-- C9: zero-degradation reduction.  With the degradation base rate set to 0 the
Model-2 objective coincides with the electricity cost; with V2G additionally
disabled via a zero lower power bound the Model-2 feasible region (box bounds
plus cumulative linear constraints) coincides with the Model-1 LP's feasible
region; hence the two problems have the same set of achievable objective values
and in particular the same optimal (infimum) electricity cost — equal exactly,
a fortiori within numerical tolerance. -/
theorem C9_zero_degradation_reduction :
    (∀ p : List ℝ, cost_charge_withRate 0 p = cost_electricity p) ∧
    (∀ p : Fin 24 → ℝ, feasibleM2NoV2G p ↔ M1.feasible p) ∧
    {c : ℝ | ∃ p : Fin 24 → ℝ, feasibleM2NoV2G p ∧ cost_charge_withRate 0 (List.ofFn p) = c} =
      {c : ℝ | ∃ p : Fin 24 → ℝ, M1.feasible p ∧ M1.objective p = c} ∧
    sInf {c : ℝ | ∃ p : Fin 24 → ℝ, feasibleM2NoV2G p ∧
        cost_charge_withRate 0 (List.ofFn p) = c} =
      sInf {c : ℝ | ∃ p : Fin 24 → ℝ, M1.feasible p ∧ M1.objective p = c} := by
  have hset : {c : ℝ | ∃ p : Fin 24 → ℝ, feasibleM2NoV2G p ∧
      cost_charge_withRate 0 (List.ofFn p) = c} =
      {c : ℝ | ∃ p : Fin 24 → ℝ, M1.feasible p ∧ M1.objective p = c} := by
    ext c
    constructor
    · rintro ⟨p, hp, rfl⟩
      refine ⟨p, (feasibleM2NoV2G_iff p).mp hp, ?_⟩
      rw [objective_eq_cost_electricity, cost_charge_withRate_zero]
    · rintro ⟨p, hp, rfl⟩
      refine ⟨p, (feasibleM2NoV2G_iff p).mpr hp, ?_⟩
      rw [cost_charge_withRate_zero, ← objective_eq_cost_electricity]
  exact ⟨cost_charge_withRate_zero, feasibleM2NoV2G_iff, hset, by rw [hset]⟩

/-- C10: on a vector longer than 24 entries, `cost_electricity` silently
truncates to the first 24 entries (Python's `zip` with the 24-entry price list),
while `cost_degradation` sums the degradation term over ALL entries — the extra
entries contribute the additional `BATTERY_COST`-scaled sum below.  Neither
function inspects or rejects the input length (both are total, see also C5). -/
theorem C10_length_mismatch (p : List ℝ) (h : 24 < p.length) :
    cost_electricity p = cost_electricity (p.take 24) ∧
    cost_degradation p =
      cost_degradation (p.take 24) +
        (BATTERY_COST : ℝ) * ((p.drop 24).map degradation_function).sum := by
  constructor
  · rw [cost_electricity, cost_electricity, zip_mul_sum, zip_mul_sum]
    refine Finset.sum_congr rfl fun i hi => ?_
    have hi24 : i < 24 := by
      have hlen : ELECTRICITY_COSTS.length = 24 := rfl
      rw [hlen] at hi
      exact Finset.mem_range.mp hi
    have htl : (p.take 24).length = 24 := by
      rw [List.length_take]
      omega
    have h1 : p.getD i 0 = (p.take 24).getD i 0 := by
      rw [List.getD_eq_getElem _ _ (by omega), List.getD_eq_getElem _ _ (by omega),
        List.getElem_take]
    rw [h1]
  · rw [cost_degradation, cost_degradation]
    conv_lhs => rw [← List.take_append_drop 24 p]
    rw [List.map_append, List.sum_append, mul_add]

/-- C10 witness: a concrete 25-entry vector. -/
theorem C10_length_mismatch_witness :
    cost_electricity (List.replicate 25 (1 : ℝ)) =
      cost_electricity ((List.replicate 25 (1 : ℝ)).take 24) ∧
    cost_degradation (List.replicate 25 (1 : ℝ)) =
      cost_degradation ((List.replicate 25 (1 : ℝ)).take 24) +
        (BATTERY_COST : ℝ) *
          (((List.replicate 25 (1 : ℝ)).drop 24).map degradation_function).sum :=
  C10_length_mismatch (List.replicate 25 1) (by simp)
